import Mathlib

/-!
# Verification of the copilot proxy gateway core

A shallow embedding, in Lean 4, of the Go sources of the proxy gateway:

* `internal/controller/copilot/chunks.go` — the embedding pipeline
  (`SplitIntoChunks`, `createChunk`, `extractPlainText`,
  `GenerateEmbeddings` with its serial and parallel paths);
* `internal/controller/copilot/utils.go` — the chat request
  transformation in `ChatCompletions` (model substitution, tool-call
  normalisation, locale injection, field stripping, limit clamping,
  probe short-circuits);
* `main.go` — the dual-listener startup protocol (the two-slot
  channel used before the launch message).

Go strings are modelled as `List Char` (`Str`).  Go's `len` on strings
counts UTF-8 bytes, so lengths of text go through `goLen` (the length of
the UTF-8 encoding); splitting on `"\n"` at the byte level coincides
with splitting on the character `'\n'`, because `0x0A` never occurs
inside a multi-byte UTF-8 sequence.  Environment variables read by the
code are gathered into an explicit `Env` record, one field per variable,
holding the value the Go code derives from `os.Getenv` (e.g. the parsed
integer with its documented default).  The upstream embedding HTTP call
(`EmbeddingClient.GetEmbedding`) is a parameter `client : Str → Except E
(List F)` — `F` stands for Go's `float32`, whose values the chunk code
never inspects.
-/

/-- Go `string`, modelled as its sequence of characters. -/
abbrev Str := List Char

/-- Shorthand turning a Lean string literal into a `Str`. -/
def str (s : String) : Str := s.toList

/-- UTF-8 encoding of one character, as byte values (Go `[]byte(string(c))`). -/
def utf8EncodeChar (c : Char) : List Nat :=
  if c.toNat < 128 then [c.toNat]
  else if c.toNat < 2048 then [192 + c.toNat / 64, 128 + c.toNat % 64]
  else if c.toNat < 65536 then
    [224 + c.toNat / 4096, 128 + c.toNat / 64 % 64, 128 + c.toNat % 64]
  else
    [240 + c.toNat / 262144, 128 + c.toNat / 4096 % 64,
     128 + c.toNat / 64 % 64, 128 + c.toNat % 64]

/-- UTF-8 encoding of a string (Go `[]byte(s)`). -/
def strUtf8 (s : Str) : List Nat := (s.map utf8EncodeChar).flatten

/-- Go `len(s)` on a string: the number of UTF-8 bytes. -/
def goLen (s : Str) : Nat := (strUtf8 s).length

/-- Go `strings.Contains(s, sub)`: `sub` occurs contiguously in `s`
(the empty pattern occurs in every string, as in Go). -/
def goContains (s sub : Str) : Bool :=
  match s with
  | [] => sub.isEmpty
  | _ :: t => sub.isPrefixOf s || goContains t sub

/-- Go `strings.Split(s, "\n")`: the pieces of `s` between newline bytes. -/
def stringsSplitNl : Str → List Str
  | [] => [[]]
  | c :: rest =>
    if c = '\n' then [] :: stringsSplitNl rest
    else
      match stringsSplitNl rest with
      | r :: rs => (c :: r) :: rs
      | [] => [[c]]

/-- Go `strings.TrimPrefix(s, pre)`. -/
def stringsTrimPre (pre s : Str) : Str :=
  if pre.isPrefixOf s then s.drop pre.length else s

/-- Go `strings.TrimSuffix(s, suf)`. -/
def stringsTrimSuf (suf s : Str) : Str :=
  if suf.isSuffixOf s then s.take (s.length - suf.length) else s

/-- The text after the first newline of `s`, if `s` has one
(Go `strings.Index(text, "\n")` followed by `text[idx+1:]`). -/
def afterFirstNl? : Str → Option Str
  | [] => none
  | c :: rest => if c = '\n' then some rest else afterFirstNl? rest

/- ## Basic facts about the string primitives -/

theorem utf8EncodeChar_ne_nil (c : Char) : utf8EncodeChar c ≠ [] := by
  unfold utf8EncodeChar
  split
  · simp
  · split
    · simp
    · split <;> simp

theorem goLen_append (a b : Str) : goLen (a ++ b) = goLen a + goLen b := by
  simp [goLen, strUtf8]

theorem goLen_eq_zero {s : Str} : goLen s = 0 ↔ s = [] := by
  constructor
  · intro h
    cases s with
    | nil => rfl
    | cons c rest =>
      exfalso
      simp only [goLen, strUtf8, List.map_cons, List.flatten, List.length_append] at h
      have := utf8EncodeChar_ne_nil c
      have : utf8EncodeChar c ≠ [] := this
      cases hc : utf8EncodeChar c with
      | nil => exact this hc
      | cons x xs => rw [hc] at h; simp at h
  · rintro rfl; rfl

theorem goLen_newline : goLen [ '\n' ] = 1 := by decide

theorem stringsSplitNl_ne_nil (s : Str) : stringsSplitNl s ≠ [] := by
  induction s with
  | nil => simp [stringsSplitNl]
  | cons c rest ih =>
    simp only [stringsSplitNl]
    split
    · simp
    · cases h : stringsSplitNl rest with
      | nil => exact absurd h ih
      | cons r rs => simp

/-- Joining the pieces with the newlines put back (the inverse direction
of `stringsSplitNl`): every piece gets a trailing newline appended, as the
chunking loop does with `line + "\n"`. -/
def joinNl (lines : List Str) : Str := (lines.map (· ++ [ '\n' ])).flatten

theorem joinNl_stringsSplitNl (s : Str) :
    joinNl (stringsSplitNl s) = s ++ [ '\n' ] := by
  induction s with
  | nil => rfl
  | cons c rest ih =>
    simp only [stringsSplitNl]
    split
    · rename_i hc
      subst hc
      simp [joinNl, List.map_cons, List.flatten] at ih ⊢
      exact ih
    · cases h : stringsSplitNl rest with
      | nil => exact absurd h (stringsSplitNl_ne_nil rest)
      | cons r rs =>
        rw [h] at ih
        simp only [joinNl, List.map_cons, List.flatten, List.cons_append] at ih ⊢
        rw [← ih]

/- ## SHA-256 (Go `crypto/sha256.Sum256` and `fmt.Sprintf("%x", hash)`)

A direct executable implementation over byte values (`Nat < 256`),
working on 32-bit words kept as `Nat` reduced modulo `2^32`. -/

/-- Truncate to a 32-bit word. -/
def w32 (n : Nat) : Nat := n % 4294967296

/-- Right rotation of a 32-bit word. -/
def rotr32 (x n : Nat) : Nat := w32 ((x >>> n) ||| (x <<< (32 - n)))

/-- SHA-256 round constants (the 64 words of FIPS 180-4, in decimal). -/
def sha256K : List Nat :=
  [1116352408, 1899447441, 3049323471, 3921009573, 961987163,
   1508970993, 2453635748, 2870763221, 3624381080, 310598401,
   607225278, 1426881987, 1925078388, 2162078206, 2614888103,
   3248222580, 3835390401, 4022224774, 264347078, 604807628,
   770255983, 1249150122, 1555081692, 1996064986, 2554220882,
   2821834349, 2952996808, 3210313671, 3336571891, 3584528711,
   113926993, 338241895, 666307205, 773529912, 1294757372,
   1396182291, 1695183700, 1986661051, 2177026350, 2456956037,
   2730485921, 2820302411, 3259730800, 3345764771, 3516065817,
   3600352804, 4094571909, 275423344, 430227734, 506948616,
   659060556, 883997877, 958139571, 1322822218, 1537002063,
   1747873779, 1955562222, 2024104815, 2227730452, 2361852424,
   2428436474, 2756734187, 3204031479, 3329325298]

/-- SHA-256 initial hash state (decimal). -/
def sha256H0 : List Nat :=
  [1779033703, 3144134277, 1013904242, 2773480762,
   1359893119, 2600822924, 528734635, 1541459225]

/-- The eight big-endian bytes of the 64-bit message bit length. -/
def sha256LenBytes (n : Nat) : List Nat :=
  [n >>> 56 % 256, n >>> 48 % 256, n >>> 40 % 256, n >>> 32 % 256,
   n >>> 24 % 256, n >>> 16 % 256, n >>> 8 % 256, n % 256]

/-- SHA-256 padding: `0x80`, zeros to 56 mod 64, then the bit length. -/
def sha256Pad (msg : List Nat) : List Nat :=
  let r := (msg.length + 1) % 64
  let k := if r ≤ 56 then 56 - r else 120 - r
  msg ++ [128] ++ List.replicate k 0 ++ sha256LenBytes (8 * msg.length)

/-- Big-endian 32-bit words from groups of four bytes. -/
def bytesToWords : List Nat → List Nat
  | a :: b :: c :: d :: rest => (((a * 256 + b) * 256 + c) * 256 + d) :: bytesToWords rest
  | _ => []

/-- Message schedule: extend the sixteen block words to sixty-four. -/
def sha256Sched (ws : Array Nat) : Array Nat :=
  (List.range 48).foldl
    (fun ws i =>
      let s0 := rotr32 ws[i + 1]! 7 ^^^ rotr32 ws[i + 1]! 18 ^^^ (ws[i + 1]! >>> 3)
      let s1 := rotr32 ws[i + 14]! 17 ^^^ rotr32 ws[i + 14]! 19 ^^^ (ws[i + 14]! >>> 10)
      ws.push (w32 (ws[i]! + s0 + ws[i + 9]! + s1)))
    ws

/-- One round of the SHA-256 compression function. -/
def sha256Round (st : List Nat) (kw : Nat × Nat) : List Nat :=
  match st with
  | [a, b, c, d, e, f, g, h] =>
    let s1 := rotr32 e 6 ^^^ rotr32 e 11 ^^^ rotr32 e 25
    let ch := (e &&& f) ^^^ ((4294967295 ^^^ e) &&& g)
    let t1 := w32 (h + s1 + ch + kw.1 + kw.2)
    let s0 := rotr32 a 2 ^^^ rotr32 a 13 ^^^ rotr32 a 22
    let mj := (a &&& b) ^^^ (a &&& c) ^^^ (b &&& c)
    let t2 := w32 (s0 + mj)
    [w32 (t1 + t2), a, b, c, w32 (d + t1), e, f, g]
  | other => other

/-- Compress one 64-byte block into the running hash state. -/
def sha256Block (h : List Nat) (block : List Nat) : List Nat :=
  let ws := sha256Sched (bytesToWords block).toArray
  let st := (sha256K.zip ws.toList).foldl sha256Round h
  (h.zip st).map (fun p => w32 (p.1 + p.2))

/-- Split the padded message into 64-byte blocks (`fuel` bounds the
recursion structurally; `sha256Blocks` passes the message length, which
is always enough). -/
def sha256BlocksGo (fuel : Nat) (msg : List Nat) : List (List Nat) :=
  match fuel with
  | 0 => []
  | f + 1 =>
    if msg.length < 64 then []
    else msg.take 64 :: sha256BlocksGo f (msg.drop 64)

/-- Split the padded message into 64-byte blocks. -/
def sha256Blocks (msg : List Nat) : List (List Nat) :=
  sha256BlocksGo msg.length msg

/-- SHA-256 digest of a byte sequence, as 32 bytes. -/
def sha256Bytes (msg : List Nat) : List Nat :=
  let final := (sha256Blocks (sha256Pad msg)).foldl sha256Block sha256H0
  (final.map (fun wrd => [wrd >>> 24 % 256, wrd >>> 16 % 256, wrd >>> 8 % 256, wrd % 256])).flatten

/-- Lowercase hexadecimal digit. -/
def hexDigit (n : Nat) : Char :=
  if n < 10 then Char.ofNat (48 + n) else Char.ofNat (87 + n)

/-- Go `fmt.Sprintf("%x", hash)` on a byte array: two lowercase hex
digits per byte. -/
def hexOfBytes (bs : List Nat) : Str :=
  (bs.map (fun b => [hexDigit (b / 16), hexDigit (b % 16)])).flatten

/-- The chunk fingerprint of a text: `fmt.Sprintf("%x",
sha256.Sum256([]byte(text)))` in `createChunk`. -/
def sha256Hex (text : Str) : Str := hexOfBytes (sha256Bytes (strUtf8 text))

/- ## Environment configuration

One field per environment variable the modelled code reads, holding the
value the Go code derives from `os.Getenv` (parsed with its documented
default when unset or unparsable: `strconv.Atoi` errors are ignored in
`ChatCompletions`, yielding `0`; `strconv.ParseBool` errors yield
`false`; a missing string variable is the empty string). -/

structure Env where
  EMBEDDING_DIMENSION_SIZE : Option Nat
  CHAT_LOCALE : Str
  CHAT_MAX_TOKENS : Int
  CHAT_USE_TOOLS : Bool
  CHAT_API_MODEL_NAME : Str
  LIGHTWEIGHT_MODEL : Str
  CODEX_API_MODEL_NAME : Str
deriving DecidableEq

/- ## `chunks.go`: the chunk data model -/

/-- `Range` in `chunks.go` (named `ChunkRange` here because the field
`Chunk.Range` below would otherwise shadow the type): `{Start, End int}`. -/
structure ChunkRange where
  Start : Nat
  End : Nat
deriving DecidableEq

/-- `Embedding` in `chunks.go`: `{Embedding []float32, Model string}`.
`F` stands for Go's `float32`; the chunk code never inspects the values. -/
structure Embedding (F : Type) where
  Embedding : List F
  Model : Str
deriving DecidableEq

/-- `Chunk` in `chunks.go`. -/
structure Chunk (F : Type) where
  Hash : Str
  Text : Str
  Range : ChunkRange
  LineRange : ChunkRange
  Embedding : Embedding F
deriving DecidableEq

/-- `getDimensionSize` in `chunks.go`: the parsed
`EMBEDDING_DIMENSION_SIZE`, defaulting to 1536. -/
def getDimensionSize (env : Env) : Nat :=
  env.EMBEDDING_DIMENSION_SIZE.getD 1536

/-- `getChunkSize` in `chunks.go`: `getDimensionSize() * 3 / 2`. -/
def getChunkSize (env : Env) : Nat := getDimensionSize env * 3 / 2

/-- The constant `markdownFilePrefix = "File: `+"`"+`%s`+"`"+`\n`+"```"+`shell\n"`
of `chunks.go`, split around the `%s` hole: the part before the path. -/
def mdFilePre : Str := str "File: `"

/-- The part of `markdownFilePrefix` after the `%s` hole. -/
def mdFileMid : Str := str "`\n```shell\n"

/-- The constant `markdownFileSuffix` of `chunks.go`. -/
def mdFileSuf : Str := str "```"

/-- `createChunk` in `chunks.go`.  The Go parameter `end` is called
`stop` here (`end` is a Lean keyword); the `model` parameter is unused
in the Go body too, so `Embedding.Model` stays the zero value `""`. -/
def createChunk {F : Type} (text path : Str) (start stop : Nat) (model : Str) : Chunk F :=
  { Hash := sha256Hex text
    Text := mdFilePre ++ path ++ mdFileMid ++ text ++ mdFileSuf
    Range := { Start := start, End := stop }
    LineRange := { Start := start, End := stop }
    Embedding := { Embedding := [], Model := [] } }

/-- `extractPlainText` in `chunks.go`: drop everything through the first
newline (the `File:` label line) when there is one, then strip the
fixed code-fence prefix and suffix. -/
def extractPlainText (text : Str) : Str :=
  stringsTrimSuf (str "```")
    (stringsTrimPre (str "```shell\n") ((afterFirstNl? text).getD text))

/-- The loop state of `SplitIntoChunks`: the chunks emitted so far, the
`strings.Builder` contents, and the running byte offset `start`. -/
structure SplitAcc (F : Type) where
  chunks : List (Chunk F)
  sb : Str
  start : Nat

/-- One iteration of the line loop of `SplitIntoChunks`: if the builder
plus the next line (with its newline restored) would exceed `chunkSize`
and the builder is non-empty, seal the builder into a chunk and restart
it with the line; otherwise append the line to the builder. -/
def splitStep {F : Type} (path model : Str) (chunkSize : Nat)
    (acc : SplitAcc F) (line : Str) : SplitAcc F :=
  if chunkSize < goLen acc.sb + goLen (line ++ [ '\n' ]) ∧ 0 < goLen acc.sb then
    { chunks := acc.chunks ++
        [createChunk acc.sb path acc.start (acc.start + goLen acc.sb) model]
      sb := line ++ [ '\n' ]
      start := acc.start + goLen acc.sb }
  else
    { acc with sb := acc.sb ++ (line ++ [ '\n' ]) }

/-- `SplitIntoChunks` in `chunks.go`: split the content on newlines,
fold the lines through `splitStep`, and seal the final non-empty
builder as the last chunk. -/
def SplitIntoChunks {F : Type} (env : Env) (content path model : Str) : List (Chunk F) :=
  let chunkSize := getChunkSize env
  let acc := (stringsSplitNl content).foldl (splitStep path model chunkSize)
    { chunks := [], sb := [], start := 0 }
  if 0 < goLen acc.sb then
    acc.chunks ++ [createChunk acc.sb path acc.start (acc.start + goLen acc.sb) model]
  else
    acc.chunks

/- ## `chunks.go`: embedding generation

`client text` models `s.embeddingClient.GetEmbedding(ctx, text)` — the
blocking upstream HTTP call, a pure function of the input text here
(the spec's deterministic stub), returning either a vector or an error.
Errors carry the chunk index to model
`fmt.Errorf("failed to generate embedding for chunk %d: %w", i, err)`. -/

/-- `chunks[i].Embedding.Embedding = embedding` — the in-place mutation
performed by both embedding paths. -/
def setEmbedding {F : Type} (c : Chunk F) (v : List F) : Chunk F :=
  { c with Embedding := { c.Embedding with Embedding := v } }

/-- `generateEmbeddingsSerial` in `chunks.go`, with the running chunk
index made explicit: process chunks in order, stop at the first failed
upstream call and return its (index-wrapped) error; earlier chunks keep
their new vectors, the failing chunk and all later ones are untouched. -/
def generateEmbeddingsSerialGo {F E : Type} (client : Str → Except E (List F)) (i : Nat) :
    List (Chunk F) → List (Chunk F) × Option (Nat × E)
  | [] => ([], none)
  | c :: rest =>
    match client (extractPlainText c.Text) with
    | .error e => (c :: rest, some (i, e))
    | .ok v =>
      let r := generateEmbeddingsSerialGo client (i + 1) rest
      (setEmbedding c v :: r.1, r.2)

/-- `generateEmbeddingsSerial` in `chunks.go` (index starting at 0). -/
def generateEmbeddingsSerial {F E : Type} (client : Str → Except E (List F))
    (chunks : List (Chunk F)) : List (Chunk F) × Option (Nat × E) :=
  generateEmbeddingsSerialGo client 0 chunks

/-- The work of one goroutine of `generateEmbeddingsParallel`: embed the
chunk's extracted plain text; on success write the vector into the
chunk's own slot, on failure leave the slot untouched. -/
def embedOne {F E : Type} (client : Str → Except E (List F)) (c : Chunk F) : Chunk F :=
  match client (extractPlainText c.Text) with
  | .ok v => setEmbedding c v
  | .error _ => c

/-- `generateEmbeddingsParallel` in `chunks.go`, in two parts.  Every
goroutine writes only to its own index and runs to completion
(`wg.Wait`), so the final slice is index-wise deterministic: slot `i`
holds `embedOne` of chunk `i`.  The errors the goroutines put on
`errChan` arrive in scheduling order; the function returns one of them
(or none).  `collectErrs` lists the captured errors in index order and
the model returns the first — with at most one failure this is exactly
the error Go returns, and `isSome` of the result agrees with Go's
`err != nil` for any number of failures.  The 10-slot semaphore bounds
concurrency only; it does not affect which slots are written or whether
an error is returned. -/
def collectErrs {F E : Type} (client : Str → Except E (List F)) (i : Nat) :
    List (Chunk F) → List (Nat × E)
  | [] => []
  | c :: rest =>
    match client (extractPlainText c.Text) with
    | .error e => (i, e) :: collectErrs client (i + 1) rest
    | .ok _ => collectErrs client (i + 1) rest

/-- The slice produced by the parallel path, paired with one of the
captured errors (see `collectErrs` above). -/
def generateEmbeddingsParallel {F E : Type} (client : Str → Except E (List F))
    (chunks : List (Chunk F)) : List (Chunk F) × Option (Nat × E) :=
  (chunks.map (embedOne client), (collectErrs client 0 chunks).head?)

/-- `GenerateEmbeddings` in `chunks.go`: no-op on an empty list, serial
for at most five chunks, parallel otherwise. -/
def GenerateEmbeddings {F E : Type} (client : Str → Except E (List F))
    (chunks : List (Chunk F)) : List (Chunk F) × Option (Nat × E) :=
  if chunks.length = 0 then (chunks, none)
  else if chunks.length ≤ 5 then generateEmbeddingsSerial client chunks
  else generateEmbeddingsParallel client chunks

/- ## Round trip of the path envelope -/

theorem afterFirstNl?_append (a b : Str) (h : '\n' ∉ a) :
    afterFirstNl? (a ++ b) = afterFirstNl? b := by
  induction a with
  | nil => rfl
  | cons c rest ih =>
    simp only [List.cons_append, afterFirstNl?]
    rw [if_neg]
    · exact ih (fun hm => h (List.mem_cons_of_mem _ hm))
    · intro hc
      exact h (hc ▸ List.mem_cons_self _ _)

theorem stringsTrimPre_append (p t : Str) : stringsTrimPre p (p ++ t) = t := by
  unfold stringsTrimPre
  rw [if_pos, List.drop_left]
  rw [List.isPrefixOf_iff_prefix]
  exact List.prefix_append p t

theorem stringsTrimSuf_append (s t : Str) : stringsTrimSuf s (t ++ s) = t := by
  unfold stringsTrimSuf
  rw [if_pos]
  · have : (t ++ s).length - s.length = t.length := by simp
    rw [this, List.take_left]
  · rw [List.isSuffixOf_iff_suffix]
    exact List.suffix_append t s

/-- The envelope applied by `createChunk`, undone by `extractPlainText`:
for a path with no newline in it, extracting the plain text of the
wrapped chunk text gives back the chunk's original text. -/
theorem extractPlainText_envelope (text path : Str) (hp : '\n' ∉ path) :
    extractPlainText (mdFilePre ++ path ++ mdFileMid ++ text ++ mdFileSuf) = text := by
  have hpre : '\n' ∉ mdFilePre ++ path := by
    intro h
    rcases List.mem_append.mp h with h | h
    · revert h; decide
    · exact hp h
  have hmid : ∀ z : Str, afterFirstNl? (mdFileMid ++ z) = some (str "```shell\n" ++ z) := by
    intro z
    show afterFirstNl? (str "`\n```shell\n" ++ z) = _
    rfl
  have h1 : afterFirstNl? (mdFilePre ++ path ++ mdFileMid ++ text ++ mdFileSuf)
      = some (str "```shell\n" ++ (text ++ mdFileSuf)) := by
    have : mdFilePre ++ path ++ mdFileMid ++ text ++ mdFileSuf
        = (mdFilePre ++ path) ++ (mdFileMid ++ (text ++ mdFileSuf)) := by
      simp [List.append_assoc]
    rw [this, afterFirstNl?_append _ _ hpre, hmid]
  unfold extractPlainText
  rw [h1]
  simp only [Option.getD_some]
  rw [stringsTrimPre_append, show (str "```") = mdFileSuf from rfl, stringsTrimSuf_append]

/-- Shorthand for the fingerprint invariant: re-hashing the extracted
plain text of a chunk built by `createChunk` over a newline-free path
gives back the stored `Hash`. -/
theorem sha256Hex_extract_createChunk {F : Type} (text path : Str) (s e : Nat)
    (model : Str) (hp : '\n' ∉ path) :
    sha256Hex (extractPlainText (createChunk (F := F) text path s e model).Text)
      = (createChunk (F := F) text path s e model).Hash := by
  show sha256Hex (extractPlainText (mdFilePre ++ path ++ mdFileMid ++ text ++ mdFileSuf))
      = sha256Hex text
  rw [extractPlainText_envelope text path hp]

/- ## Invariants of the chunking loop -/

/-- The concatenated extracted (unwrapped) texts of a chunk list. -/
def unwrapAll {F : Type} (l : List (Chunk F)) : Str :=
  (l.map (fun c => extractPlainText c.Text)).flatten

theorem unwrapAll_append {F : Type} (a b : List (Chunk F)) :
    unwrapAll (a ++ b) = unwrapAll a ++ unwrapAll b := by
  simp [unwrapAll]

theorem unwrapAll_singleton {F : Type} (c : Chunk F) :
    unwrapAll [c] = extractPlainText c.Text := by
  simp [unwrapAll]

/-- `extractPlainText` applied to the `Text` field built by `createChunk`. -/
theorem extractPlainText_createChunk {F : Type} (text path : Str) (s e : Nat)
    (model : Str) (hp : '\n' ∉ path) :
    extractPlainText (createChunk (F := F) text path s e model).Text = text :=
  extractPlainText_envelope text path hp

theorem joinNl_cons (l : Str) (ls : List Str) :
    joinNl (l :: ls) = (l ++ [ '\n' ]) ++ joinNl ls := by
  simp [joinNl]

/-- Concatenation invariant of the line loop: the unwrapped text of the
chunks emitted so far followed by the pending builder always equals the
starting state's text followed by the processed lines, each with its
newline restored. -/
theorem foldl_splitStep_concat {F : Type} (path model : Str) (cs : Nat)
    (hp : '\n' ∉ path) :
    ∀ (lines : List Str) (acc : SplitAcc F),
      unwrapAll ((lines.foldl (splitStep path model cs) acc).chunks)
          ++ (lines.foldl (splitStep path model cs) acc).sb
        = unwrapAll acc.chunks ++ (acc.sb ++ joinNl lines)
  | [], acc => by simp [joinNl]
  | line :: rest, acc => by
    rw [List.foldl_cons,
      foldl_splitStep_concat path model cs hp rest (splitStep path model cs acc line)]
    unfold splitStep
    split
    · simp only [unwrapAll_append, unwrapAll_singleton,
        extractPlainText_createChunk _ _ _ _ _ hp, joinNl_cons]
      simp [List.append_assoc]
    · simp [joinNl_cons, List.append_assoc]

/-- Small-content invariant: while the builder plus all remaining lines
fit inside the budget, the loop only accumulates; no chunk is sealed. -/
theorem foldl_splitStep_small {F : Type} (path model : Str) (cs : Nat) :
    ∀ (lines : List Str) (acc : SplitAcc F),
      goLen acc.sb + goLen (joinNl lines) ≤ cs →
      lines.foldl (splitStep path model cs) acc
        = { chunks := acc.chunks, sb := acc.sb ++ joinNl lines, start := acc.start }
  | [], acc => by
    intro _
    simp [joinNl]
  | line :: rest, acc => by
    intro hle
    rw [joinNl_cons, goLen_append] at hle
    rw [List.foldl_cons]
    have hstep : splitStep path model cs acc line
        = { acc with sb := acc.sb ++ (line ++ [ '\n' ]) } := by
      unfold splitStep
      rw [if_neg]
      intro hand
      omega
    rw [hstep, foldl_splitStep_small path model cs rest _ (by rw [goLen_append]; omega)]
    simp [joinNl_cons, List.append_assoc]

/-- Shape invariant: every chunk the loop emits is `createChunk raw path
s (s + goLen raw) model` for some raw text and offset. -/
theorem foldl_splitStep_shape {F : Type} (path model : Str) (cs : Nat) :
    ∀ (lines : List Str) (acc : SplitAcc F),
      (∀ c ∈ acc.chunks, ∃ raw s,
        c = createChunk (F := F) raw path s (s + goLen raw) model) →
      ∀ c ∈ (lines.foldl (splitStep path model cs) acc).chunks, ∃ raw s,
        c = createChunk (F := F) raw path s (s + goLen raw) model
  | [], acc => by
    intro hacc
    simpa using hacc
  | line :: rest, acc => by
    intro hacc
    rw [List.foldl_cons]
    apply foldl_splitStep_shape path model cs rest
    unfold splitStep
    split
    · intro c hc
      simp only [List.mem_append, List.mem_singleton] at hc
      rcases hc with hc | hc
      · exact hacc c hc
      · exact ⟨acc.sb, acc.start, hc⟩
    · exact hacc

/-- Every chunk returned by `SplitIntoChunks` has the `createChunk`
shape: raw text `raw`, byte range `[s, s + goLen raw)`. -/
theorem SplitIntoChunks_shape {F : Type} (env : Env) (content path model : Str) :
    ∀ c ∈ SplitIntoChunks (F := F) env content path model, ∃ raw s,
      c = createChunk (F := F) raw path s (s + goLen raw) model := by
  intro c hc
  unfold SplitIntoChunks at hc
  set acc := (stringsSplitNl content).foldl
    (splitStep path model (getChunkSize env)) { chunks := [], sb := [], start := 0 } with hacc
  have hbase := foldl_splitStep_shape (F := F) path model (getChunkSize env)
    (stringsSplitNl content) { chunks := [], sb := [], start := 0 } (by simp)
  rw [← hacc] at hbase
  by_cases hsb : 0 < goLen acc.sb
  · rw [if_pos hsb] at hc
    simp only [List.mem_append, List.mem_singleton] at hc
    rcases hc with hc | hc
    · exact hbase c hc
    · exact ⟨acc.sb, acc.start, hc⟩
  · rw [if_neg hsb] at hc
    exact hbase c hc

/- ## Behaviour of the two embedding paths -/

/-- A successful upstream call makes `embedOne` write exactly the
returned vector into the chunk's slot. -/
theorem embedOne_ok {F E : Type} (client : Str → Except E (List F))
    (c : Chunk F) (v : List F) (h : client (extractPlainText c.Text) = .ok v) :
    embedOne client c = setEmbedding c v := by
  unfold embedOne
  rw [h]

/-- A failed upstream call leaves the chunk untouched. -/
theorem embedOne_err {F E : Type} (client : Str → Except E (List F))
    (c : Chunk F) (e : E) (h : client (extractPlainText c.Text) = .error e) :
    embedOne client c = c := by
  unfold embedOne
  rw [h]

/-- The serial loop, when the upstream call fails first at the chunk `c`
after the all-successful block `pre`: the chunks of `pre` keep their new
vectors, `c` and everything after it are untouched, and the returned
error wraps `c`'s index. -/
theorem generateEmbeddingsSerialGo_firstErr {F E : Type}
    (client : Str → Except E (List F)) (e : E) :
    ∀ (pre : List (Chunk F)) (c : Chunk F) (post : List (Chunk F)) (i : Nat),
      (∀ p ∈ pre, ∃ v, client (extractPlainText p.Text) = .ok v) →
      client (extractPlainText c.Text) = .error e →
      generateEmbeddingsSerialGo client i (pre ++ c :: post)
        = (pre.map (embedOne client) ++ c :: post, some (i + pre.length, e))
  | [], c, post, i => by
    intro _ hc
    simp only [List.nil_append, List.map_nil, generateEmbeddingsSerialGo, hc]
    simp
  | p :: pre, c, post, i => by
    intro hpre hc
    obtain ⟨v, hv⟩ := hpre p (List.mem_cons_self _ _)
    simp only [List.cons_append, generateEmbeddingsSerialGo, hv]
    simp only [List.append_eq]
    rw [generateEmbeddingsSerialGo_firstErr client e pre c post (i + 1)
      (fun q hq => hpre q (List.mem_cons_of_mem _ hq)) hc]
    simp only [List.map_cons, List.cons_append]
    rw [embedOne_ok client p v hv]
    have hlen : i + 1 + pre.length = i + (p :: pre).length := by
      simp [List.length_cons]
      omega
    rw [hlen]

/-- The serial loop on an all-successful chunk list: every chunk gets
its vector, no error. -/
theorem generateEmbeddingsSerialGo_allOk {F E : Type}
    (client : Str → Except E (List F)) :
    ∀ (chunks : List (Chunk F)) (i : Nat),
      (∀ p ∈ chunks, ∃ v, client (extractPlainText p.Text) = .ok v) →
      generateEmbeddingsSerialGo client i chunks = (chunks.map (embedOne client), none)
  | [], i => by intro _; rfl
  | p :: rest, i => by
    intro hok
    obtain ⟨v, hv⟩ := hok p (List.mem_cons_self _ _)
    simp only [generateEmbeddingsSerialGo, hv]
    rw [generateEmbeddingsSerialGo_allOk client rest (i + 1)
      (fun q hq => hok q (List.mem_cons_of_mem _ hq))]
    simp only [List.map_cons]
    rw [embedOne_ok client p v hv]

/-- No error is captured when every upstream call succeeds. -/
theorem collectErrs_allOk {F E : Type} (client : Str → Except E (List F)) :
    ∀ (chunks : List (Chunk F)) (i : Nat),
      (∀ p ∈ chunks, ∃ v, client (extractPlainText p.Text) = .ok v) →
      collectErrs client i chunks = []
  | [], i => by intro _; rfl
  | p :: rest, i => by
    intro hok
    obtain ⟨v, hv⟩ := hok p (List.mem_cons_self _ _)
    simp only [collectErrs, hv]
    exact collectErrs_allOk client rest (i + 1)
      (fun q hq => hok q (List.mem_cons_of_mem _ hq))

/-- The captured-error list when exactly one chunk fails: just that
chunk's index-wrapped error. -/
theorem collectErrs_oneFail {F E : Type} (client : Str → Except E (List F)) (e : E) :
    ∀ (pre : List (Chunk F)) (c : Chunk F) (post : List (Chunk F)) (i : Nat),
      (∀ p ∈ pre, ∃ v, client (extractPlainText p.Text) = .ok v) →
      client (extractPlainText c.Text) = .error e →
      (∀ p ∈ post, ∃ v, client (extractPlainText p.Text) = .ok v) →
      collectErrs client i (pre ++ c :: post) = [(i + pre.length, e)]
  | [], c, post, i => by
    intro _ hc hpost
    simp only [List.nil_append, collectErrs, hc]
    rw [collectErrs_allOk client post (i + 1) hpost]
    simp
  | p :: pre, c, post, i => by
    intro hpre hc hpost
    obtain ⟨v, hv⟩ := hpre p (List.mem_cons_self _ _)
    simp only [List.cons_append, collectErrs, hv]
    simp only [List.append_eq]
    rw [collectErrs_oneFail client e pre c post (i + 1)
      (fun q hq => hpre q (List.mem_cons_of_mem _ hq)) hc hpost]
    congr 2
    simp [List.length_cons]
    omega

/- ## `utils.go`: the chat request model

`ChatCompletions` reads and rewrites the request body through
`gjson`/`sjson`.  The body is modelled as a record of the fields the
handler touches; `Bool` fields record presence of a field whose value
the handler never reads (`gjson ... .Exists()`), and `sjson.DeleteBytes`
sets them to `false`/`none`.  `gjson`'s `.Int()` of an absent field is
`0`, and `.String()`/`.Array()` of an absent field are empty. -/

/-- One element of the `messages` array.  `tool_calls` is `none` when
absent; its elements are opaque (only emptiness is branched on). -/
structure Message where
  role : Str
  content : Str
  tool_calls : Option (List Unit)
deriving DecidableEq

/-- The `function` member of a declared tool: the handler only tests
whether `parameters` is present (`sjson` injecting the default schema
makes it present). -/
structure ToolFunction where
  parameters : Bool
deriving DecidableEq

/-- A declared tool. -/
structure Tool where
  function : Option ToolFunction
deriving DecidableEq

/-- The fields of the inbound chat request body that `ChatCompletions`
reads or rewrites.  Unrecognised fields pass through untouched and are
not modelled. -/
structure ChatRequest where
  model : Str
  stream : Option Bool
  function_call : Bool
  messages : List Message
  tools : Option (List Tool)
  tool_call : Bool
  functions : Bool
  tool_choice : Bool
  intent : Bool
  intent_threshold : Bool
  intent_content : Bool
  logprobs : Bool
  max_tokens : Option Int
  n : Option Int
deriving DecidableEq

/-- Indexing a Go slice with a Go `int`: negative or too-large indices
panic with an index-out-of-range runtime error. -/
def goIndex {α : Type} (xs : List α) (i : Int) : Except Str α :=
  if h : 0 ≤ i ∧ i.toNat < xs.length then .ok (xs.get ⟨i.toNat, h.2⟩)
  else .error (str "runtime error: index out of range")

/-- `sjson.SetBytes(body, "messages.<i>.content", c)`: replace the
content of the i-th message, leaving everything else alone. -/
def setContentAt : List Message → Nat → Str → List Message
  | [], _, _ => []
  | m :: rest, 0, c => { m with content := c } :: rest
  | m :: rest, i + 1, c => m :: setContentAt rest i c

/-- The locale-directive marker `ChatCompletions` searches for. -/
def localeMarker : Str := str "Respond in the following locale"

/-- The locale instruction appended to the last message. -/
def localeSentence (locale : Str) : Str :=
  str "Respond in the following locale: " ++ locale ++ str "."

/-- First-message preamble of the vscode preflight probe. -/
def probePreamble : Str := str "You are a helpful AI programming assistant to a user"

/-- The marker distinguishing the longer variant that must not be
short-circuited. -/
def probeExclusion : Str :=
  str "If you cannot choose just one category, or if none of the categories seem like they would provide the user with a better result, you must always respond with"

/-- First-message preamble of the vs2022 handshake. -/
def vsPreamble : Str := str "You are an AI programming assistant"

/-- The fixed follow-up-question prompt of the vs2022 client. -/
def vsFollowup : Str :=
  str "Write a short one-sentence question that I can ask that naturally follows from the previous few questions and answers. It should not ask a question which is already answered in the conversation. It should be a question that you are capable of answering. Reply with only the text of the question and nothing else."

/-- `utils.go` lines 126-136: route to the codex upstream model name
when the requested model contains the lightweight marker, and force
streaming. -/
def withModelStream (env : Env) (req : ChatRequest) : ChatRequest :=
  { req with
    model := if goContains req.model env.LIGHTWEIGHT_MODEL then env.CODEX_API_MODEL_NAME
      else env.CHAT_API_MODEL_NAME
    stream := some true }

/-- `utils.go` lines 140-145: delete the `tool_calls` field of every
message whose tool-call array is empty (gjson yields an empty array for
an absent field too). -/
def cleanToolCalls (msgs : List Message) : List Message :=
  msgs.map (fun m =>
    if (m.tool_calls.getD []).length = 0 then { m with tool_calls := none } else m)

/-- The first half of the body rewriting of `ChatCompletions`
(`utils.go` lines 117-151): model substitution, forced streaming, and —
only when the request has no `function_call` field — empty `tool_calls`
removal and locale injection.  `lastIndex` is `len(messages)-1` over the
snapshot taken before the cleaning, as in the Go code; the error case
models the Go panic when `messages[lastIndex]` is evaluated on an empty
array. -/
def localeStage (env : Env) (req : ChatRequest) : Except Str ChatRequest :=
  if (withModelStream env req).function_call = false then
    if env.CHAT_LOCALE ≠ [] then
      match goIndex (withModelStream env req).messages
          (((withModelStream env req).messages.length : Int) - 1) with
      | .error e => .error e
      | .ok lastMsg =>
        if goContains lastMsg.content localeMarker = false then
          .ok { withModelStream env req with messages :=
            (setContentAt (cleanToolCalls (withModelStream env req).messages)
              (((withModelStream env req).messages.length : Int) - 1).toNat
              (lastMsg.content ++ localeSentence env.CHAT_LOCALE)) }
        else
          .ok { withModelStream env req with
                messages := cleanToolCalls (withModelStream env req).messages }
    else
      .ok { withModelStream env req with
            messages := cleanToolCalls (withModelStream env req).messages }
  else
    .ok (withModelStream env req)

/-- The rest of the rewriting (`utils.go` lines 153-192): strip the
intent and logprobs fields, apply the tools policy, clamp `max_tokens`
to `CHAT_MAX_TOKENS` and `n` to 1. -/
def stripClampStage (env : Env) (body1 : ChatRequest) : ChatRequest :=
  let body2 :=
    { body1 with
      intent := false
      intent_threshold := false
      intent_content := false
      logprobs := false }
  let body3 :=
    if env.CHAT_USE_TOOLS = false then
      { body2 with
        tools := none
        tool_call := false
        functions := false
        function_call := false
        tool_choice := false }
    else
      body2
  let body4 :=
    if body3.tools.isSome then
      { body3 with tools := body3.tools.map (List.map (fun t =>
          match t.function with
          | none => t
          | some f =>
            if f.parameters = false then { t with function := some { parameters := true } }
            else t)) }
    else
      body3
  let body5 :=
    if env.CHAT_MAX_TOKENS < body4.max_tokens.getD 0 then
      { body4 with max_tokens := some env.CHAT_MAX_TOKENS }
    else
      body4
  let body6 :=
    if (1 : Int) < body5.n.getD 0 then { body5 with n := some 1 } else body5
  body6

/-- The body rewriting of `ChatCompletions` (`utils.go` lines 117-192):
the locale stage followed by the strip-and-clamp stage.  The result is
the body the handler will forward upstream. -/
def transformBody (env : Env) (req : ChatRequest) : Except Str ChatRequest := do
  let body1 ← localeStage env req
  pure (stripClampStage env body1)

/-- What `ChatCompletions` does with the transformed body (`utils.go`
lines 194-224): short-circuit a recognised probe or vs2022 handshake,
or dispatch the body upstream. -/
inductive ChatOutcome where
  | probeDone
  | vs2022Template
  | vsFollowupDone
  | forward (body : ChatRequest)
deriving DecidableEq

/-- `utils.go` lines 194-224 on the transformed body: short-circuit the
vscode preflight probe (first message: system role, assistant-persona
preamble, not the longer category variant, and no `tool_choice`), then
the `VSCopilotClient` compatibility branches — whose last-message
access `messages[len(messages)-1]` panics on an empty `messages` array
— and otherwise forward the body.  gjson's `messages.0.role` and
`messages.0.content` of an empty array are empty strings. -/
def dispatchStage (userAgent : Str) (body : ChatRequest) : Except Str ChatOutcome :=
  if goContains ((body.messages.head?.map Message.role).getD []) (str "system")
      ∧ goContains ((body.messages.head?.map Message.content).getD []) probePreamble
      ∧ goContains ((body.messages.head?.map Message.content).getD []) probeExclusion = false
      ∧ body.tool_choice = false then
    .ok ChatOutcome.probeDone
  else if goContains userAgent (str "VSCopilotClient") then
    match goIndex body.messages ((body.messages.length : Int) - 1) with
    | .error e => .error e
    | .ok lastMessage =>
      if goContains ((body.messages.head?.map Message.role).getD []) (str "system")
          ∧ goContains ((body.messages.head?.map Message.content).getD []) vsPreamble then
        .ok ChatOutcome.vs2022Template
      else if lastMessage.role = str "user" ∧ lastMessage.content = vsFollowup then
        .ok ChatOutcome.vsFollowupDone
      else
        .ok (ChatOutcome.forward body)
  else
    .ok (ChatOutcome.forward body)

/-- `ChatCompletions` in `utils.go`, from body parsing to the upstream
dispatch decision: transform the body, then dispatch. -/
def chatCompletions (env : Env) (userAgent : Str) (req : ChatRequest) :
    Except Str ChatOutcome := do
  let body ← transformBody env req
  dispatchStage userAgent body

/- ## `main.go`: the startup protocol

The interleaving semantics of the three routines involved in startup:
the HTTP server goroutine (send its token on `serverStarted`, then
`ListenAndServe` begins accepting), the HTTPS server goroutine (send,
then `ListenAndServeTLS` begins accepting), and the main routine (two
receives from `serverStarted`, then `message.ShowAppLaunchMessage()` —
the ready point).  A trace is any interleaving of these three programs
respecting the channel semantics; `serverStarted` has capacity 2, so
with only two sends a send never blocks and imposes no constraint. -/

/-- The seven startup events of `main.go`. -/
inductive StartEvent where
  | sendHTTP
  | acceptHTTP
  | sendHTTPS
  | acceptHTTPS
  | recvFirst
  | recvSecond
  | ready
deriving DecidableEq

/-- Events of the HTTP server goroutine. -/
def isHTTPEv : StartEvent → Bool
  | .sendHTTP => true
  | .acceptHTTP => true
  | _ => false

/-- Events of the HTTPS server goroutine. -/
def isHTTPSEv : StartEvent → Bool
  | .sendHTTPS => true
  | .acceptHTTPS => true
  | _ => false

/-- Events of the main routine. -/
def isMainEv : StartEvent → Bool
  | .recvFirst => true
  | .recvSecond => true
  | .ready => true
  | _ => false

/-- A send on `serverStarted`. -/
def isSendEv : StartEvent → Bool
  | .sendHTTP => true
  | .sendHTTPS => true
  | _ => false

/-- A receive from `serverStarted`. -/
def isRecvEv : StartEvent → Bool
  | .recvFirst => true
  | .recvSecond => true
  | _ => false

/-- Channel discipline of `serverStarted`: a receive needs a previously
sent, not yet consumed token (`bal` is the buffer occupancy). -/
def chanOk : Nat → List StartEvent → Bool
  | _, [] => true
  | bal, e :: rest =>
    if isSendEv e then chanOk (bal + 1) rest
    else if isRecvEv e then decide (0 < bal) && chanOk (bal - 1) rest
    else chanOk bal rest

/-- A complete startup trace: each routine's events occur exactly once
in program order, and the channel discipline holds. -/
def ValidStartTrace (t : List StartEvent) : Prop :=
  t.filter isHTTPEv = [.sendHTTP, .acceptHTTP]
  ∧ t.filter isHTTPSEv = [.sendHTTPS, .acceptHTTPS]
  ∧ t.filter isMainEv = [.recvFirst, .recvSecond, .ready]
  ∧ chanOk 0 t = true

instance (t : List StartEvent) : Decidable (ValidStartTrace t) := by
  unfold ValidStartTrace
  infer_instance

/- Facts used about startup traces. -/

theorem chanOk_prefix_count (a : List StartEvent) :
    ∀ (bal : Nat) (b : List StartEvent), chanOk bal (a ++ b) = true →
      a.countP isRecvEv ≤ bal + a.countP isSendEv := by
  induction a with
  | nil =>
    intro bal b _
    simp
  | cons e rest ih =>
    intro bal b h
    rw [List.cons_append] at h
    unfold chanOk at h
    by_cases hs : isSendEv e = true
    · rw [if_pos hs] at h
      have := ih (bal + 1) b h
      simp only [List.countP_cons, hs]
      have hr : isRecvEv e = false := by
        cases e <;> simp_all [isSendEv, isRecvEv]
      simp [hr]
      omega
    · rw [if_neg hs] at h
      by_cases hr : isRecvEv e = true
      · rw [if_pos hr] at h
        rw [Bool.and_eq_true] at h
        have hbal : 0 < bal := of_decide_eq_true h.1
        have := ih (bal - 1) b h.2
        simp only [List.countP_cons, hr]
        have hs' : isSendEv e = false := by simpa using hs
        simp [hs']
        omega
      · rw [if_neg hr] at h
        have := ih bal b h
        simp only [List.countP_cons]
        have hr' : isRecvEv e = false := by simpa using hr
        have hs' : isSendEv e = false := by simpa using hs
        simp [hr', hs']
        omega

theorem countP_isSendEv_split (l : List StartEvent) :
    l.countP isSendEv = l.count .sendHTTP + l.count .sendHTTPS := by
  induction l with
  | nil => rfl
  | cons e rest ih =>
    cases e <;> simp [List.countP_cons, List.count_cons, ih, isSendEv] <;> omega

theorem countP_isRecvEv_of_filter_main {l : List StartEvent}
    (h : l.filter isMainEv = [.recvFirst, .recvSecond]) :
    l.countP isRecvEv = 2 := by
  have h1 : l.countP (fun e => isRecvEv e && isMainEv e) = (l.filter isMainEv).countP isRecvEv := by
    rw [List.countP_filter]
  have h2 : (fun e => isRecvEv e && isMainEv e) = isRecvEv := by
    funext e
    cases e <;> rfl
  rw [h2] at h1
  rw [h1, h]
  rfl

@[simp] theorem withModelStream_function_call (env : Env) (req : ChatRequest) :
    (withModelStream env req).function_call = req.function_call := rfl

@[simp] theorem withModelStream_messages (env : Env) (req : ChatRequest) :
    (withModelStream env req).messages = req.messages := rfl

@[simp] theorem withModelStream_n (env : Env) (req : ChatRequest) :
    (withModelStream env req).n = req.n := rfl

@[simp] theorem withModelStream_max_tokens (env : Env) (req : ChatRequest) :
    (withModelStream env req).max_tokens = req.max_tokens := rfl

@[simp] theorem cleanToolCalls_length (msgs : List Message) :
    (cleanToolCalls msgs).length = msgs.length := by
  simp [cleanToolCalls]

@[simp] theorem setContentAt_length (msgs : List Message) (i : Nat) (c : Str) :
    (setContentAt msgs i c).length = msgs.length := by
  induction msgs generalizing i with
  | nil => rfl
  | cons m rest ih =>
    cases i with
    | zero => rfl
    | succ j => simp [setContentAt, ih]

theorem setContentAt_get?_of_ne (msgs : List Message) (i : Nat) (c : Str)
    (j : Nat) (h : j ≠ i) : (setContentAt msgs i c).get? j = msgs.get? j := by
  induction msgs generalizing i j with
  | nil => rfl
  | cons m rest ih =>
    cases i with
    | zero =>
      cases j with
      | zero => exact absurd rfl h
      | succ j' => simp [setContentAt]
    | succ i' =>
      cases j with
      | zero => rfl
      | succ j' => simpa [setContentAt] using ih i' j' (fun he => h (by omega))

theorem setContentAt_get?_content (msgs : List Message) (i : Nat) (c : Str)
    (h : i < msgs.length) :
    ((setContentAt msgs i c).get? i).map Message.content = some c := by
  induction msgs generalizing i with
  | nil => simp at h
  | cons m rest ih =>
    cases i with
    | zero => rfl
    | succ i' =>
      simp only [setContentAt, List.get?]
      exact ih i' (by simpa using h)

theorem localeStage_ok_fields (env : Env) (req : ChatRequest) (b1 : ChatRequest)
    (h : localeStage env req = .ok b1) :
    b1.n = req.n ∧ b1.max_tokens = req.max_tokens ∧ b1.tool_choice = req.tool_choice
      ∧ b1.tools = req.tools ∧ b1.messages.length = req.messages.length := by
  unfold localeStage at h
  split at h
  · split at h
    · split at h
      · simp at h
      · split at h
        · simp only [Except.ok.injEq] at h
          subst h
          simp [withModelStream]
        · simp only [Except.ok.injEq] at h
          subst h
          simp [withModelStream]
    · simp only [Except.ok.injEq] at h
      subst h
      simp [withModelStream]
  · simp only [Except.ok.injEq] at h
    subst h
    simp [withModelStream]

theorem stripClampStage_messages (env : Env) (b1 : ChatRequest) :
    (stripClampStage env b1).messages = b1.messages := by
  simp only [stripClampStage]
  repeat' split <;> simp_all

theorem stripClampStage_n (env : Env) (b1 : ChatRequest) :
    (stripClampStage env b1).n = (if (1 : Int) < b1.n.getD 0 then some 1 else b1.n) := by
  simp only [stripClampStage]
  repeat' split <;> simp_all

theorem stripClampStage_max_tokens (env : Env) (b1 : ChatRequest) :
    (stripClampStage env b1).max_tokens
      = (if env.CHAT_MAX_TOKENS < b1.max_tokens.getD 0 then some env.CHAT_MAX_TOKENS
         else b1.max_tokens) := by
  simp only [stripClampStage]
  repeat' split <;> simp_all

/-- Decidable equality for `Except`, used to evaluate the stubbed
upstream in witnesses. -/
instance {e a : Type} [DecidableEq e] [DecidableEq a] : DecidableEq (Except e a) := fun x y =>
  match x, y with
  | .ok u, .ok v =>
    if h : u = v then .isTrue (by rw [h]) else .isFalse (fun he => h (by injection he))
  | .error u, .error v =>
    if h : u = v then .isTrue (by rw [h]) else .isFalse (fun he => h (by injection he))
  | .ok _, .error _ => .isFalse (fun he => by injection he)
  | .error _, .ok _ => .isFalse (fun he => by injection he)

/- ## The claims -/

/-- C1 (counterexample): concatenating the unwrapped texts of the
chunks of the content `"a"` does not reproduce `"a"` — the line loop
appends a newline to the final line too, so the concatenation carries
one extra trailing newline. -/
theorem C1_counterexample :
    unwrapAll (SplitIntoChunks (F := Unit) ⟨some 2, [], 0, false, [], [], []⟩
      (str "a") (str "p") (str "m")) ≠ str "a" := by
  decide

/-- C1 (amended): for every content, and every path without a newline
(so that the envelope is unwrappable), concatenating in order the
unwrapped texts of all chunks returned by `SplitIntoChunks` reproduces
the original content followed by exactly one extra trailing newline. -/
theorem C1_concat_roundtrip {F : Type} (env : Env) (content path model : Str)
    (hp : '\n' ∉ path) :
    unwrapAll (SplitIntoChunks (F := F) env content path model)
      = content ++ [ '\n' ] := by
  simp only [SplitIntoChunks]
  have hconcat := foldl_splitStep_concat (F := F) path model (getChunkSize env) hp
    (stringsSplitNl content) { chunks := [], sb := [], start := 0 }
  rw [joinNl_stringsSplitNl] at hconcat
  set acc := (stringsSplitNl content).foldl
    (splitStep path model (getChunkSize env)) { chunks := [], sb := [], start := 0 }
  simp only [unwrapAll, List.map_nil, List.flatten_nil, List.nil_append] at hconcat
  by_cases hsb : 0 < goLen acc.sb
  · rw [if_pos hsb, unwrapAll_append, unwrapAll_singleton,
      extractPlainText_createChunk _ _ _ _ _ hp]
    exact hconcat
  · rw [if_neg hsb]
    have hnil : acc.sb = [] := goLen_eq_zero.mp (by omega)
    rw [hnil, List.append_nil] at hconcat
    exact hconcat

/-- C1 (witness): the amended round trip at a two-chunk input. -/
theorem C1_concat_roundtrip_witness :
    '\n' ∉ str "p"
    ∧ unwrapAll (SplitIntoChunks (F := Unit) ⟨some 2, [], 0, false, [], [], []⟩
        (str "ab\ncd") (str "p") (str "m")) = str "ab\ncd" ++ [ '\n' ] :=
  ⟨by decide, C1_concat_roundtrip ⟨some 2, [], 0, false, [], [], []⟩
    (str "ab\ncd") (str "p") (str "m") (by decide)⟩

/-- C2 (counterexample): with embedding dimension 2 the chunk budget is
`2 * 3 / 2 = 3`; the content `"a\nb"` has byte size `3 ≤ 3`, yet
`SplitIntoChunks` returns two chunks, because the loop's budget check
counts the restored trailing newline. -/
theorem C2_counterexample :
    goLen (str "a\nb") ≤ getChunkSize ⟨some 2, [], 0, false, [], [], []⟩
    ∧ (SplitIntoChunks (F := Unit) ⟨some 2, [], 0, false, [], [], []⟩
        (str "a\nb") (str "p") (str "m")).length = 2 := by
  decide

/-- C2 (amended): for every content whose byte size is strictly below
the chunk budget, `SplitIntoChunks` returns exactly one chunk, whose
raw (unwrapped) text is the entire content followed by one trailing
newline. -/
theorem C2_single_chunk {F : Type} (env : Env) (content path model : Str)
    (h : goLen content < getChunkSize env) :
    SplitIntoChunks (F := F) env content path model
      = [createChunk (content ++ [ '\n' ]) path 0 (goLen content + 1) model]
    ∧ ('\n' ∉ path →
        extractPlainText
            (createChunk (F := F) (content ++ [ '\n' ]) path 0 (goLen content + 1) model).Text
          = content ++ [ '\n' ]) := by
  constructor
  · simp only [SplitIntoChunks]
    have hle : goLen ([] : Str) + goLen (joinNl (stringsSplitNl content))
        ≤ getChunkSize env := by
      rw [joinNl_stringsSplitNl, goLen_append, goLen_newline]
      have h0 : goLen ([] : Str) = 0 := rfl
      omega
    rw [foldl_splitStep_small path model (getChunkSize env) (stringsSplitNl content)
      { chunks := [], sb := [], start := 0 } hle]
    simp only [joinNl_stringsSplitNl, List.nil_append]
    rw [if_pos (by rw [goLen_append, goLen_newline]; omega)]
    rw [goLen_append, goLen_newline]
    simp
  · intro hp
    exact extractPlainText_createChunk _ _ _ _ _ hp

/-- C2 (witness): the amended statement at content `"a"` and budget 3. -/
theorem C2_single_chunk_witness :
    goLen (str "a") < getChunkSize ⟨some 2, [], 0, false, [], [], []⟩
    ∧ (SplitIntoChunks (F := Unit) ⟨some 2, [], 0, false, [], [], []⟩
          (str "a") (str "p") (str "m")
        = [createChunk (str "a" ++ [ '\n' ]) (str "p") 0 (goLen (str "a") + 1) (str "m")]
      ∧ ('\n' ∉ str "p" →
          extractPlainText
              (createChunk (F := Unit) (str "a" ++ [ '\n' ]) (str "p") 0
                (goLen (str "a") + 1) (str "m")).Text
            = str "a" ++ [ '\n' ])) :=
  ⟨by decide, C2_single_chunk ⟨some 2, [], 0, false, [], [], []⟩
    (str "a") (str "p") (str "m") (by decide)⟩

/-- C5: for every chunk produced by `SplitIntoChunks` from a path with
no newline, re-hashing the extracted plain text gives back the stored
fingerprint: `extractPlainText` inverts the envelope `createChunk`
applied, and the `Hash` field was computed on the raw text. -/
theorem C5_fingerprint {F : Type} (env : Env) (content path model : Str)
    (hp : '\n' ∉ path) :
    ∀ c ∈ SplitIntoChunks (F := F) env content path model,
      sha256Hex (extractPlainText c.Text) = c.Hash := by
  intro c hc
  obtain ⟨raw, s, rfl⟩ := SplitIntoChunks_shape env content path model c hc
  exact sha256Hex_extract_createChunk raw path s (s + goLen raw) model hp

/-- C5 (witness): the fingerprint invariant at the single chunk of
content `"hi"`. -/
theorem C5_fingerprint_witness :
    '\n' ∉ str "p"
    ∧ sha256Hex (extractPlainText
          (createChunk (F := Unit) (str "hi\n") (str "p") 0 3 (str "m")).Text)
        = (createChunk (F := Unit) (str "hi\n") (str "p") 0 3 (str "m")).Hash :=
  ⟨by decide, C5_fingerprint (F := Unit) ⟨some 2, [], 0, false, [], [], []⟩
    (str "hi") (str "p") (str "m") (by decide)
    (createChunk (str "hi\n") (str "p") 0 3 (str "m")) (by decide)⟩

/-- C10: every chunk returned by `SplitIntoChunks` has `LineRange`
equal to `Range` (both are byte offsets; no line numbers are recorded),
and the range width `End - Start` is the byte length of the chunk's
unwrapped text (stated through `extractPlainText`, hence under a
newline-free path). -/
theorem C10_range_invariant {F : Type} (env : Env) (content path model : Str) :
    ∀ c ∈ SplitIntoChunks (F := F) env content path model,
      c.LineRange = c.Range
      ∧ ('\n' ∉ path →
          c.Range.End - c.Range.Start = goLen (extractPlainText c.Text)) := by
  intro c hc
  obtain ⟨raw, s, rfl⟩ := SplitIntoChunks_shape env content path model c hc
  refine ⟨rfl, fun hp => ?_⟩
  rw [extractPlainText_createChunk raw path s (s + goLen raw) model hp]
  show s + goLen raw - s = goLen raw
  omega

/-- C10 (witness): the range invariant at the single chunk of content
`"hi"`. -/
theorem C10_range_invariant_witness :
    (createChunk (F := Unit) (str "hi\n") (str "p") 0 3 (str "m")).LineRange
        = (createChunk (F := Unit) (str "hi\n") (str "p") 0 3 (str "m")).Range
    ∧ ('\n' ∉ str "p" →
        (createChunk (F := Unit) (str "hi\n") (str "p") 0 3 (str "m")).Range.End
            - (createChunk (F := Unit) (str "hi\n") (str "p") 0 3 (str "m")).Range.Start
          = goLen (extractPlainText
              (createChunk (F := Unit) (str "hi\n") (str "p") 0 3 (str "m")).Text)) :=
  C10_range_invariant ⟨some 2, [], 0, false, [], [], []⟩ (str "hi") (str "p") (str "m")
    (createChunk (str "hi\n") (str "p") 0 3 (str "m")) (by decide)

/-- C7: `GenerateEmbeddings` on a non-empty list of at most five chunks
takes the serial path; when the upstream call first fails at a chunk
`c` (the block `pre` before it all succeeding), the returned error is
`c`'s index-wrapped upstream error, the chunks of `pre` keep their
newly assigned vectors (each slot holds exactly the upstream vector for
its extracted text), and `c` and everything after it are unchanged. -/
theorem C7_serial_first_error {F E : Type} (client : Str → Except E (List F))
    (pre : List (Chunk F)) (c : Chunk F) (post : List (Chunk F)) (e : E)
    (hlen : (pre ++ c :: post).length ≤ 5)
    (hpre : ∀ p ∈ pre, ∃ v, client (extractPlainText p.Text) = .ok v)
    (hc : client (extractPlainText c.Text) = .error e) :
    GenerateEmbeddings client (pre ++ c :: post)
      = (pre.map (embedOne client) ++ c :: post, some (pre.length, e))
    ∧ GenerateEmbeddings client (pre ++ c :: post)
      = generateEmbeddingsSerial client (pre ++ c :: post)
    ∧ ∀ p ∈ pre, ∃ v, client (extractPlainText p.Text) = .ok v
        ∧ (embedOne client p).Embedding.Embedding = v := by
  have hne : (pre ++ c :: post).length ≠ 0 := by simp
  have hserial : GenerateEmbeddings client (pre ++ c :: post)
      = generateEmbeddingsSerial client (pre ++ c :: post) := by
    unfold GenerateEmbeddings
    rw [if_neg hne, if_pos hlen]
  refine ⟨?_, hserial, ?_⟩
  · rw [hserial]
    unfold generateEmbeddingsSerial
    have := generateEmbeddingsSerialGo_firstErr client e pre c post 0 hpre hc
    rw [this]
    simp
  · intro p hp
    obtain ⟨v, hv⟩ := hpre p hp
    exact ⟨v, hv, by
        rw [embedOne_ok client p v hv]
        rfl⟩

/-- A chunk of the C6/C7 witnesses: only the `Text` field matters to
the stubbed upstream. -/
def stubChunk (t : Str) : Chunk Nat :=
  { Hash := []
    Text := t
    Range := { Start := 0, End := 0 }
    LineRange := { Start := 0, End := 0 }
    Embedding := { Embedding := [], Model := [] } }

/-- The deterministic upstream stub of the C6/C7 witnesses: fails on
the text `"B"`, returns the vector `[1]` otherwise. -/
def stubClient : Str → Except Str (List Nat) :=
  fun t => if t = str "B" then .error (str "boom") else .ok [1]

/-- C7 (witness): the serial path at two chunks, the second failing. -/
theorem C7_serial_first_error_witness :
    ([stubChunk (str "A")] ++ stubChunk (str "B") :: []).length ≤ 5
    ∧ GenerateEmbeddings stubClient ([stubChunk (str "A")] ++ stubChunk (str "B") :: [])
      = ([stubChunk (str "A")].map (embedOne stubClient) ++ stubChunk (str "B") :: [],
         some ([stubChunk (str "A")].length, str "boom")) :=
  ⟨by decide,
   (C7_serial_first_error stubClient [stubChunk (str "A")] (stubChunk (str "B")) []
      (str "boom") (by decide)
      (fun p hp => by
        rw [List.mem_singleton] at hp
        subst hp
        exact ⟨[1], by decide⟩)
      (by decide)).1⟩

/-- C6: `GenerateEmbeddings` on more than five chunks takes the
parallel path; when the upstream fails for exactly one chunk `c` (every
chunk of `pre` and `post` succeeding), the call returns `c`'s
index-wrapped error (non-nil), the resulting slice holds `embedOne` of
every chunk — all workers ran to completion — and every chunk other
than the failing one has its embedding slot populated with exactly the
upstream vector for its extracted text. -/
theorem C6_parallel_one_failure {F E : Type} (client : Str → Except E (List F))
    (pre : List (Chunk F)) (c : Chunk F) (post : List (Chunk F)) (e : E)
    (hlen : 5 < (pre ++ c :: post).length)
    (hpre : ∀ p ∈ pre, ∃ v, client (extractPlainText p.Text) = .ok v)
    (hc : client (extractPlainText c.Text) = .error e)
    (hpost : ∀ p ∈ post, ∃ v, client (extractPlainText p.Text) = .ok v) :
    (GenerateEmbeddings client (pre ++ c :: post)).2 = some (pre.length, e)
    ∧ (GenerateEmbeddings client (pre ++ c :: post)).1
        = pre.map (embedOne client) ++ c :: post.map (embedOne client)
    ∧ ∀ p ∈ pre ++ post, ∃ v, client (extractPlainText p.Text) = .ok v
        ∧ (embedOne client p).Embedding.Embedding = v := by
  have hne : (pre ++ c :: post).length ≠ 0 := by simp
  have hnotle : ¬ (pre ++ c :: post).length ≤ 5 := by omega
  have hpar : GenerateEmbeddings client (pre ++ c :: post)
      = generateEmbeddingsParallel client (pre ++ c :: post) := by
    unfold GenerateEmbeddings
    rw [if_neg hne, if_neg hnotle]
  refine ⟨?_, ?_, ?_⟩
  · rw [hpar]
    show ((collectErrs client 0 (pre ++ c :: post)).head?) = some (pre.length, e)
    rw [collectErrs_oneFail client e pre c post 0 hpre hc hpost]
    simp
  · rw [hpar]
    show (pre ++ c :: post).map (embedOne client) = _
    rw [List.map_append, List.map_cons]
    rw [embedOne_err client c e hc]
  · intro p hp
    rcases List.mem_append.mp hp with hp | hp
    · obtain ⟨v, hv⟩ := hpre p hp
      exact ⟨v, hv, by
        rw [embedOne_ok client p v hv]
        rfl⟩
    · obtain ⟨v, hv⟩ := hpost p hp
      exact ⟨v, hv, by
        rw [embedOne_ok client p v hv]
        rfl⟩

/-- C6 (witness): the parallel path at seven chunks, the fourth
failing. -/
theorem C6_parallel_one_failure_witness :
    5 < ([stubChunk (str "A1"), stubChunk (str "A2"), stubChunk (str "A3")]
        ++ stubChunk (str "B")
          :: [stubChunk (str "A4"), stubChunk (str "A5"), stubChunk (str "A6")]).length
    ∧ (GenerateEmbeddings stubClient
        ([stubChunk (str "A1"), stubChunk (str "A2"), stubChunk (str "A3")]
          ++ stubChunk (str "B")
            :: [stubChunk (str "A4"), stubChunk (str "A5"), stubChunk (str "A6")])).2
      = some ([stubChunk (str "A1"), stubChunk (str "A2"), stubChunk (str "A3")].length,
              str "boom") :=
  ⟨by decide,
   (C6_parallel_one_failure stubClient
      [stubChunk (str "A1"), stubChunk (str "A2"), stubChunk (str "A3")]
      (stubChunk (str "B"))
      [stubChunk (str "A4"), stubChunk (str "A5"), stubChunk (str "A6")]
      (str "boom") (by decide)
      (fun p hp => by
        fin_cases hp <;> exact ⟨[1], by decide⟩)
      (by decide)
      (fun p hp => by
        fin_cases hp <;> exact ⟨[1], by decide⟩)).1⟩

/- ## Facts about the chat pipeline stages -/

theorem transformBody_eq (env : Env) (req : ChatRequest) :
    transformBody env req = (localeStage env req).map (stripClampStage env) := by
  unfold transformBody
  cases localeStage env req <;> rfl

theorem chatCompletions_eq (env : Env) (ua : Str) (req : ChatRequest) :
    chatCompletions env ua req = (transformBody env req).bind (dispatchStage ua) := by
  unfold chatCompletions
  cases transformBody env req <;> rfl

theorem cleanToolCalls_get?_content (msgs : List Message) (i : Nat) :
    ((cleanToolCalls msgs).get? i).map Message.content
      = (msgs.get? i).map Message.content := by
  unfold cleanToolCalls
  rw [List.get?_map, Option.map_map]
  congr 1
  funext m
  show Message.content (if (m.tool_calls.getD []).length = 0
    then { m with tool_calls := none } else m) = m.content
  split <;> rfl

/-- `goIndex` at `len - 1` of a non-empty list yields its last element. -/
theorem goIndex_last (msgs : List Message) (hne : msgs ≠ []) :
    goIndex msgs ((msgs.length : Int) - 1) = .ok (msgs.getLast hne) := by
  have h0 : 0 < msgs.length := List.length_pos.mpr hne
  have htn : ((msgs.length : Int) - 1).toNat = msgs.length - 1 := by omega
  unfold goIndex
  rw [dif_pos ⟨by omega, by omega⟩, List.getLast_eq_getElem]
  simp only [List.get_eq_getElem]
  congr 2

/-- Evaluation of `localeStage` in the locale-injection case: no
`function_call`, a configured locale, a non-empty messages array whose
last message lacks the directive. -/
theorem localeStage_inject (env : Env) (req : ChatRequest)
    (hloc : env.CHAT_LOCALE ≠ [])
    (hfc : req.function_call = false)
    (hne : req.messages ≠ [])
    (hmark : goContains (req.messages.getLast hne).content localeMarker = false) :
    localeStage env req
      = .ok { withModelStream env req with messages :=
          (setContentAt (cleanToolCalls req.messages) (req.messages.length - 1)
            ((req.messages.getLast hne).content ++ localeSentence env.CHAT_LOCALE)) } := by
  have hfc' : (withModelStream env req).function_call = false := by
    rw [withModelStream_function_call]; exact hfc
  have htn : (((withModelStream env req).messages.length : Int) - 1).toNat
      = req.messages.length - 1 := by
    rw [withModelStream_messages]
    have h0 : 0 < req.messages.length := List.length_pos.mpr hne
    omega
  unfold localeStage
  rw [if_pos hfc', if_pos hloc]
  rw [show goIndex (withModelStream env req).messages
        (((withModelStream env req).messages.length : Int) - 1)
      = .ok (req.messages.getLast hne) from by
    rw [withModelStream_messages]; exact goIndex_last req.messages hne]
  dsimp only
  rw [if_pos hmark, htn, withModelStream_messages]

/-- C3 (amended): if a locale is configured, the request carries no
`function_call` field (the Go code skips the whole block otherwise),
the messages array is non-empty, and the final message's content does
not already contain the locale directive, then the forwarded body has
the locale-instruction sentence appended to the last message's content
and the content of every other message is unchanged. -/
theorem C3_locale_injection (env : Env) (req : ChatRequest)
    (hloc : env.CHAT_LOCALE ≠ [])
    (hfc : req.function_call = false)
    (hne : req.messages ≠ [])
    (hmark : goContains (req.messages.getLast hne).content localeMarker = false) :
    ∃ b, transformBody env req = .ok b
      ∧ b.messages.length = req.messages.length
      ∧ (b.messages.get? (req.messages.length - 1)).map Message.content
          = some ((req.messages.getLast hne).content ++ localeSentence env.CHAT_LOCALE)
      ∧ ∀ i, i + 1 < req.messages.length →
          (b.messages.get? i).map Message.content
            = (req.messages.get? i).map Message.content := by
  have hstage := localeStage_inject env req hloc hfc hne hmark
  refine ⟨stripClampStage env { withModelStream env req with messages :=
    (setContentAt (cleanToolCalls req.messages) (req.messages.length - 1)
      ((req.messages.getLast hne).content ++ localeSentence env.CHAT_LOCALE)) }, ?_, ?_, ?_, ?_⟩
  · rw [transformBody_eq, hstage]
    rfl
  · rw [stripClampStage_messages]
    show (setContentAt (cleanToolCalls req.messages) (req.messages.length - 1)
      ((req.messages.getLast hne).content ++ localeSentence env.CHAT_LOCALE)).length
      = req.messages.length
    rw [setContentAt_length, cleanToolCalls_length]
  · rw [stripClampStage_messages]
    show ((setContentAt (cleanToolCalls req.messages) (req.messages.length - 1)
        ((req.messages.getLast hne).content ++ localeSentence env.CHAT_LOCALE)).get?
          (req.messages.length - 1)).map Message.content = _
    rw [setContentAt_get?_content]
    rw [cleanToolCalls_length]
    have h0 : 0 < req.messages.length := List.length_pos.mpr hne
    omega
  · intro i hi
    rw [stripClampStage_messages]
    show ((setContentAt (cleanToolCalls req.messages) (req.messages.length - 1)
        ((req.messages.getLast hne).content ++ localeSentence env.CHAT_LOCALE)).get?
          i).map Message.content = _
    rw [setContentAt_get?_of_ne _ _ _ _ (by omega), cleanToolCalls_get?_content]

/-- C3 (witness): the amended statement at a concrete two-message
request with locale `"zh"`. -/
theorem C3_locale_injection_witness :
    (str "zh" : Str) ≠ []
    ∧ (∃ b, transformBody ⟨none, str "zh", 0, false, [], [], []⟩
          ⟨str "gpt", none, false,
           [⟨str "system", str "sys", none⟩, ⟨str "user", str "hi", none⟩],
           none, false, false, false, false, false, false, false, none, none⟩
        = .ok b
      ∧ b.messages.length = 2
      ∧ (b.messages.get? 1).map Message.content
          = some (str "hi" ++ localeSentence (str "zh"))
      ∧ (b.messages.get? 0).map Message.content = some (str "sys")) := by
  refine ⟨by decide, ?_⟩
  obtain ⟨b, h1, h2, h3, h4⟩ := C3_locale_injection ⟨none, str "zh", 0, false, [], [], []⟩
    ⟨str "gpt", none, false,
     [⟨str "system", str "sys", none⟩, ⟨str "user", str "hi", none⟩],
     none, false, false, false, false, false, false, false, none, none⟩
    (by decide) rfl (by decide) (by decide)
  refine ⟨b, h1, h2, ?_, ?_⟩
  · simpa using h3
  · have := h4 0 (by decide)
    simpa using this

/-- C3 (counterexample): a request that carries a `function_call` field
is forwarded with its last message untouched even though a locale is
configured and the content has no locale directive — the claim omits
the no-`function_call` precondition guarding the whole block. -/
theorem C3_counterexample :
    (str "zh" : Str) ≠ []
    ∧ goContains (str "hi") localeMarker = false
    ∧ (transformBody ⟨none, str "zh", 0, false, [], [], []⟩
          ⟨str "gpt", none, true, [⟨str "user", str "hi", none⟩],
           none, false, false, false, false, false, false, false, none, none⟩).map
        (fun b => b.messages.map Message.content)
      = .ok [str "hi"] := by
  refine ⟨by decide, by decide, ?_⟩
  decide

/-- C4: for every parsed chat request with `CHAT_MAX_TOKENS` configured
positive, the body `ChatCompletions` forwards upstream has `n = 1`
whenever the inbound `n` exceeds 1, and `max_tokens` equal to the
configured ceiling whenever the inbound `max_tokens` exceeds it. -/
theorem C4_clamps (env : Env) (req : ChatRequest) (b : ChatRequest)
    (hpos : (0 : Int) < env.CHAT_MAX_TOKENS)
    (hfwd : transformBody env req = .ok b) :
    ((1 : Int) < req.n.getD 0 → b.n = some 1)
    ∧ (env.CHAT_MAX_TOKENS < req.max_tokens.getD 0 →
        b.max_tokens = some env.CHAT_MAX_TOKENS) := by
  rw [transformBody_eq] at hfwd
  cases hls : localeStage env req with
  | error e =>
    rw [hls] at hfwd
    simp [Except.map] at hfwd
  | ok b1 =>
    rw [hls] at hfwd
    simp only [Except.map, Except.ok.injEq] at hfwd
    obtain ⟨hn1, hmax1, -, -, -⟩ := localeStage_ok_fields env req b1 hls
    constructor
    · intro hngt
      rw [← hfwd, stripClampStage_n, hn1, if_pos hngt]
    · intro hmaxgt
      rw [← hfwd, stripClampStage_max_tokens, hmax1, if_pos hmaxgt]

/-- C4 (witness): `n: 3` is forwarded as `n: 1` and `max_tokens: 99` is
clamped to the ceiling 5. -/
theorem C4_clamps_witness :
    (0 : Int) < 5
    ∧ (((1 : Int) < (some (3 : Int)).getD 0 →
          (⟨[], some true, false, [⟨str "u", str "hi", none⟩], none, false, false,
            false, false, false, false, false, some 5, some 1⟩ : ChatRequest).n = some 1)
      ∧ ((5 : Int) < (some (99 : Int)).getD 0 →
          (⟨[], some true, false, [⟨str "u", str "hi", none⟩], none, false, false,
            false, false, false, false, false, some 5, some 1⟩ : ChatRequest).max_tokens
            = some 5)) :=
  ⟨by decide,
   C4_clamps ⟨none, [], 5, false, [], [], []⟩
     ⟨str "m", none, false, [⟨str "u", str "hi", none⟩], none, false, false, false,
      false, false, false, false, some 99, some 3⟩
     ⟨[], some true, false, [⟨str "u", str "hi", none⟩], none, false, false, false,
      false, false, false, false, some 5, some 1⟩
     (by decide) (by decide)⟩

/-- When the messages array is empty and `localeStage` nevertheless
succeeds (no locale configured, or a `function_call` present), the
resulting body still has an empty messages array. -/
theorem localeStage_ok_messages_nil (env : Env) (req : ChatRequest) (b1 : ChatRequest)
    (hempty : req.messages = [])
    (h : localeStage env req = .ok b1) : b1.messages = [] := by
  unfold localeStage at h
  split at h
  · split at h
    · rw [withModelStream_messages, hempty] at h
      rw [show goIndex ([] : List Message) ((([] : List Message).length : Int) - 1)
          = .error (str "runtime error: index out of range") from rfl] at h
      simp at h
    · simp only [Except.ok.injEq] at h
      subst h
      show cleanToolCalls (withModelStream env req).messages = []
      rw [withModelStream_messages, hempty]
      rfl
  · simp only [Except.ok.injEq] at h
    subst h
    rw [withModelStream_messages, hempty]

/-- When the messages array is empty, a `localeStage` error is exactly
the index-out-of-range panic. -/
theorem localeStage_error_msg (env : Env) (req : ChatRequest) (e : Str)
    (hempty : req.messages = [])
    (h : localeStage env req = .error e) :
    e = str "runtime error: index out of range" := by
  unfold localeStage at h
  split at h
  · split at h
    · rw [withModelStream_messages, hempty] at h
      rw [show goIndex ([] : List Message) ((([] : List Message).length : Int) - 1)
          = .error (str "runtime error: index out of range") from rfl] at h
      dsimp only at h
      simp only [Except.error.injEq] at h
      exact h.symm
    · simp at h
  · simp at h

/-- C9: on a request with an empty `messages` array, if a locale is
configured and no `function_call` field is present, or the caller is a
`VSCopilotClient`, then `ChatCompletions` evaluates the last-message
access `messages[len(messages)-1]` at index `-1` and panics with an
index-out-of-range runtime error: the handler's indexing is in-bounds
only under the unchecked precondition that `messages` is non-empty. -/
theorem C9_empty_messages_panics (env : Env) (ua : Str) (req : ChatRequest)
    (hempty : req.messages = [])
    (hcase : (env.CHAT_LOCALE ≠ [] ∧ req.function_call = false)
      ∨ goContains ua (str "VSCopilotClient") = true) :
    chatCompletions env ua req = .error (str "runtime error: index out of range") := by
  rw [chatCompletions_eq, transformBody_eq]
  cases hls : localeStage env req with
  | error e =>
    rw [localeStage_error_msg env req e hempty hls]
    rfl
  | ok b1 =>
    have hmsgs : b1.messages = [] := localeStage_ok_messages_nil env req b1 hempty hls
    rcases hcase with ⟨hloc, hfc⟩ | hua
    · exfalso
      unfold localeStage at hls
      rw [if_pos (by rw [withModelStream_function_call]; exact hfc), if_pos hloc,
        withModelStream_messages, hempty] at hls
      rw [show goIndex ([] : List Message) ((([] : List Message).length : Int) - 1)
          = .error (str "runtime error: index out of range") from rfl] at hls
      simp at hls
    · show dispatchStage ua (stripClampStage env b1) = _
      have hbm : (stripClampStage env b1).messages = [] := by
        rw [stripClampStage_messages]
        exact hmsgs
      unfold dispatchStage
      rw [hbm]
      rw [if_neg (fun hand => by
        have h1 := hand.1
        revert h1
        decide)]
      rw [if_pos hua]
      rfl

/-- C9 (witness): the panic at a concrete request with empty messages,
locale `"zh"` configured and no `function_call`. -/
theorem C9_empty_messages_panics_witness :
    (⟨[], none, false, [], none, false, false, false, false, false, false, false,
      none, none⟩ : ChatRequest).messages = []
    ∧ chatCompletions ⟨none, str "zh", 0, false, [], [], []⟩ []
        ⟨[], none, false, [], none, false, false, false, false, false, false, false,
         none, none⟩
      = .error (str "runtime error: index out of range") :=
  ⟨rfl,
   C9_empty_messages_panics ⟨none, str "zh", 0, false, [], [], []⟩ []
     ⟨[], none, false, [], none, false, false, false, false, false, false, false,
      none, none⟩
     rfl (Or.inl ⟨by decide, rfl⟩)⟩

/-- C8 (counterexample): a valid interleaving of the startup routines
in which the launch message (`ready`) happens before either listener
has begun accepting: each server goroutine sends its token on
`serverStarted` *before* calling `ListenAndServe(TLS)`, so the barrier
in `main` only waits for the goroutines to start, not for the
listeners to accept. -/
theorem C8_counterexample :
    ValidStartTrace
      [StartEvent.sendHTTP, StartEvent.sendHTTPS, StartEvent.recvFirst,
       StartEvent.recvSecond, StartEvent.ready, StartEvent.acceptHTTP,
       StartEvent.acceptHTTPS]
    ∧ List.indexOf StartEvent.ready
        [StartEvent.sendHTTP, StartEvent.sendHTTPS, StartEvent.recvFirst,
         StartEvent.recvSecond, StartEvent.ready, StartEvent.acceptHTTP,
         StartEvent.acceptHTTPS]
      < List.indexOf StartEvent.acceptHTTP
          [StartEvent.sendHTTP, StartEvent.sendHTTPS, StartEvent.recvFirst,
           StartEvent.recvSecond, StartEvent.ready, StartEvent.acceptHTTP,
           StartEvent.acceptHTTPS] := by
  decide

/-- C8 (amended): in every valid startup trace, the ready point is
reached only after both server goroutines have *started* (each has sent
its token on the two-slot `serverStarted` channel): both sends precede
`ready`.  The barrier does not order `ready` after the listeners begin
accepting. -/
theorem C8_ready_after_sends (t₁ t₂ : List StartEvent)
    (h : ValidStartTrace (t₁ ++ StartEvent.ready :: t₂)) :
    StartEvent.sendHTTP ∈ t₁ ∧ StartEvent.sendHTTPS ∈ t₁ := by
  obtain ⟨hH, hS, hM, hC⟩ := h
  have hM' : t₁.filter isMainEv ++ StartEvent.ready :: t₂.filter isMainEv
      = [StartEvent.recvFirst, StartEvent.recvSecond, StartEvent.ready] := by
    rw [List.filter_append, List.filter_cons] at hM
    rw [if_pos (show isMainEv StartEvent.ready = true from rfl)] at hM
    exact hM
  have hfil : t₁.filter isMainEv = [StartEvent.recvFirst, StartEvent.recvSecond] := by
    rcases hl : t₁.filter isMainEv with _ | ⟨a, _ | ⟨b, _ | ⟨c, l⟩⟩⟩ <;>
      rw [hl] at hM' <;> simp_all
  have hcnt2 : t₁.countP isRecvEv = 2 := countP_isRecvEv_of_filter_main hfil
  have hchan := chanOk_prefix_count t₁ 0 (StartEvent.ready :: t₂) hC
  have hsend2 : 2 ≤ t₁.count StartEvent.sendHTTP + t₁.count StartEvent.sendHTTPS := by
    rw [← countP_isSendEv_split]
    omega
  have hH1 : (t₁ ++ StartEvent.ready :: t₂).count StartEvent.sendHTTP = 1 := by
    have h1 : ((t₁ ++ StartEvent.ready :: t₂).filter isHTTPEv).count StartEvent.sendHTTP
        = (t₁ ++ StartEvent.ready :: t₂).count StartEvent.sendHTTP :=
      List.count_filter rfl
    rw [hH] at h1
    rw [← h1]
    decide
  have hS1 : (t₁ ++ StartEvent.ready :: t₂).count StartEvent.sendHTTPS = 1 := by
    have h1 : ((t₁ ++ StartEvent.ready :: t₂).filter isHTTPSEv).count StartEvent.sendHTTPS
        = (t₁ ++ StartEvent.ready :: t₂).count StartEvent.sendHTTPS :=
      List.count_filter rfl
    rw [hS] at h1
    rw [← h1]
    decide
  have hsub : t₁.Sublist (t₁ ++ StartEvent.ready :: t₂) := List.sublist_append_left _ _
  have hle1 : t₁.count StartEvent.sendHTTP ≤ 1 := by
    have := hsub.count_le StartEvent.sendHTTP
    omega
  have hle2 : t₁.count StartEvent.sendHTTPS ≤ 1 := by
    have := hsub.count_le StartEvent.sendHTTPS
    omega
  constructor
  · exact List.count_pos_iff.mp (by omega)
  · exact List.count_pos_iff.mp (by omega)

/-- C8 (witness): the amended ordering at a concrete valid trace. -/
theorem C8_ready_after_sends_witness :
    ValidStartTrace
      ([StartEvent.sendHTTP, StartEvent.acceptHTTP, StartEvent.sendHTTPS,
        StartEvent.acceptHTTPS, StartEvent.recvFirst, StartEvent.recvSecond]
       ++ StartEvent.ready :: [])
    ∧ (StartEvent.sendHTTP
          ∈ [StartEvent.sendHTTP, StartEvent.acceptHTTP, StartEvent.sendHTTPS,
             StartEvent.acceptHTTPS, StartEvent.recvFirst, StartEvent.recvSecond]
      ∧ StartEvent.sendHTTPS
          ∈ [StartEvent.sendHTTP, StartEvent.acceptHTTP, StartEvent.sendHTTPS,
             StartEvent.acceptHTTPS, StartEvent.recvFirst, StartEvent.recvSecond]) :=
  ⟨by decide,
   C8_ready_after_sends
     [StartEvent.sendHTTP, StartEvent.acceptHTTP, StartEvent.sendHTTPS,
      StartEvent.acceptHTTPS, StartEvent.recvFirst, StartEvent.recvSecond]
     [] (by decide)⟩
